import Mathlib

/-!
Shallow embedding of `sport_activities_features/interruptions/interruption_processor.py`
(class `InterruptionProcessor`): segment building (`__data_to_lines`), event scanning and
windowing (`parse_events`, `__determine_event_type`) and classification (`classify_event`).

Times and coordinates are modelled as rationals; the Python `while` loops are embedded as
structurally recursive functions over an explicit fuel argument, with wrappers supplying
enough fuel (the loops advance their index by one each iteration, so `length - i` bounds
the iteration count).  The unbounded pre-window skip loop (source line 131), which indexes
`lines[indexStartPre]` without a bounds check, is embedded with `Option`: `none` models the
Python `IndexError`.
-/

namespace SAF

/-- Modelled from the spec: speed value attached to a segment, exposing `km`
(the code reads `segment.speed.km`; the class itself lives outside `src/`). -/
structure Speed where
  km : ℚ
deriving DecidableEq, Repr

/-- A single track sample (the `DotMap` point built in `__data_to_lines`):
latitude, longitude, time, and the optional fields the builder may attach. -/
structure TrackPoint where
  latitude : ℚ
  longitude : ℚ
  time : ℚ
  elevation : Option ℚ
  heartrate : Option ℚ
  distance : Option ℚ
deriving DecidableEq, Repr

instance : Inhabited TrackPoint :=
  ⟨⟨0, 0, 0, none, none, none⟩⟩

/-- Modelled from the spec: a `TrackSegment` is an ordered pair of consecutive points
plus the derived speed and the optional previous segment's speed (the class lives
outside `src/`; the processor code only reads these four attributes). -/
structure TrackSegment where
  point_a : TrackPoint
  point_b : TrackPoint
  speed : Speed
  prev_speed : Option Speed
deriving DecidableEq, Repr

instance : Inhabited TrackSegment :=
  ⟨⟨default, default, ⟨0⟩, none⟩⟩

/-- Modelled from the spec: event types (`EventType` enum used by the processor). -/
inductive EventType where
  | EXERCISE_START
  | EXERCISE_STOP
  | EXERCISE_PAUSE
  | UNDEFINED
deriving DecidableEq, Repr

/-- Modelled from the spec: detail types (only `INTERSECTION` is produced). -/
inductive EventDetailType where
  | INTERSECTION
deriving DecidableEq, Repr

/-- Modelled from the spec: a classified location (latitude, longitude). -/
structure EventLocation where
  latitude : ℚ
  longitude : ℚ
deriving DecidableEq, Repr

/-- Modelled from the spec: classification result attached to an event. -/
structure EventDetail where
  location : EventLocation
  type : EventDetailType
deriving DecidableEq, Repr

/-- Modelled from the spec: the durable pipeline output — three segment lists,
an event type and an optional detail (`ExerciseEvent` lives outside `src/`;
`add_event` / `add_pre_event` / `add_post_event` append to the three lists). -/
structure ExerciseEvent where
  pre_event : List TrackSegment
  event : List TrackSegment
  post_event : List TrackSegment
  event_type : EventType
  event_detail : Option EventDetail
deriving DecidableEq, Repr

/-- The raw track record consumed by `__data_to_lines` (`tcx_data` dictionary):
parallel arrays of positions, timestamps and optional samples. -/
structure TcxData where
  positions : List (ℚ × ℚ)
  timestamps : List ℚ
  altitudes : List ℚ
  heartrates : List ℚ
  distances : List ℚ
  speeds : List ℚ
deriving DecidableEq, Repr

/-! ## Generic loop scanners

Each bounded Python loop `while i < len(lines) and P(lines[i]): ... ; i += 1` is embedded
twice: `collectWhileF` returns the list of scanned segments, `stopWhileF` the final index.
`skipWhileF` embeds the unbounded loop `while P(lines[i]): i += 1` whose out-of-bounds
access is modelled as `none`. -/

/-- Segments collected by a bounded scan loop starting at `i`. -/
def collectWhileF (lines : List TrackSegment) (P : TrackSegment → Bool) :
    ℕ → ℕ → List TrackSegment
  | 0, _ => []
  | fuel + 1, i =>
    if i < lines.length then
      if P (lines.getD i default) then
        lines.getD i default :: collectWhileF lines P fuel (i + 1)
      else []
    else []

/-- Final index of a bounded scan loop starting at `i`. -/
def stopWhileF (lines : List TrackSegment) (P : TrackSegment → Bool) :
    ℕ → ℕ → ℕ
  | 0, i => i
  | fuel + 1, i =>
    if i < lines.length then
      if P (lines.getD i default) then stopWhileF lines P fuel (i + 1)
      else i
    else i

/-- Final index of the unbounded skip loop; `none` models the Python `IndexError`
raised when the index runs past the end of `lines`. -/
def skipWhileF (lines : List TrackSegment) (P : TrackSegment → Bool) :
    ℕ → ℕ → Option ℕ
  | 0, _ => none
  | fuel + 1, i =>
    if i < lines.length then
      if P (lines.getD i default) then skipWhileF lines P fuel (i + 1)
      else some i
    else none

/-- Bounded scan, collected segments (`lines.length - i` iterations always suffice). -/
def collectWhile (lines : List TrackSegment) (P : TrackSegment → Bool) (i : ℕ) :
    List TrackSegment :=
  collectWhileF lines P (lines.length - i) i

/-- Bounded scan, final index. -/
def stopWhile (lines : List TrackSegment) (P : TrackSegment → Bool) (i : ℕ) : ℕ :=
  stopWhileF lines P (lines.length - i) i

/-- Unbounded skip loop (source line 131); `lines.length + 1 - i` fuel suffices to
either find the boundary or reach the out-of-bounds access. -/
def skipWhile (lines : List TrackSegment) (P : TrackSegment → Bool) (i : ℕ) : Option ℕ :=
  skipWhileF lines P (lines.length + 1 - i) i

/-! ## The event scanner (`parse_events`, source lines 94-140) -/

/-- `lines[index].speed.km < self.min_speed` — the threshold test used by the scanner. -/
def speedBelow (min_speed : ℚ) (s : TrackSegment) : Bool :=
  decide (s.speed.km < min_speed)

/-- `__determine_event_type` (source lines 26-37): `index_start == 0` gives START,
otherwise `index_end >= len(lines) - 1` gives STOP, otherwise PAUSE.
The Python comparison is over ints, hence the cast to `ℤ`. -/
def determineEventType (index_start index_end : ℕ) (numLines : ℕ) : EventType :=
  if index_start = 0 then EventType.EXERCISE_START
  else if (numLines : ℤ) - 1 ≤ (index_end : ℤ) then EventType.EXERCISE_STOP
  else EventType.EXERCISE_PAUSE

/-- The body of the scanner's outer `if` (source lines 108-138): the event built for the
run that starts at segment `a` (with `lines[a].speed.km < min_speed`).
Mirrors the source: the inner `while` (lines 113-116) collects the run and leaves the
index at `stopWhile`; `timestamp_mid_end` ends up as `point_b.time` of the last collected
segment, i.e. of `lines[index_end]`; the post window collects from the run's end while
`point_a.time < mid_end + (time_interval + 1)`; the pre-window skip loop (line 131)
searches from 0 for the first `point_a.time >= mid_start - time_interval` — `none` is the
`IndexError` when it runs past the end — and the pre window then collects while
`point_a.time <= mid_start`. -/
def mkEventAt (lines : List TrackSegment) (min_speed time_interval : ℚ) (a : ℕ) :
    Option ExerciseEvent :=
  let evSegs := collectWhile lines (speedBelow min_speed) a
  let j := stopWhile lines (speedBelow min_speed) a
  let midStart := (lines.getD a default).point_a.time
  let midEnd := (lines.getD (j - 1) default).point_b.time
  let postEnd := midEnd + (time_interval + 1)
  let preStart := midStart - time_interval
  let post := collectWhile lines (fun s => decide (s.point_a.time < postEnd)) j
  match skipWhile lines (fun s => decide (s.point_a.time < preStart)) 0 with
  | none => none
  | some p =>
    some { pre_event := collectWhile lines (fun s => decide (s.point_a.time ≤ midStart)) p
           event := evSegs
           post_event := post
           event_type := determineEventType a (j - 1) lines.length
           event_detail := none }

/-- The outer `while index < len(lines)` loop of `parse_events` (source lines 106-139),
with fuel: when `lines[index]` is below threshold the run at `index` becomes an event and
the loop resumes at the run's final index plus one (the trailing `index += 1`); otherwise
the index just advances.  `none` propagates the pre-window `IndexError`. -/
def parseEventsF (lines : List TrackSegment) (min_speed time_interval : ℚ) :
    ℕ → ℕ → Option (List ExerciseEvent)
  | 0, _ => some []
  | fuel + 1, index =>
    if index < lines.length then
      if speedBelow min_speed (lines.getD index default) then
        match mkEventAt lines min_speed time_interval index with
        | none => none
        | some ev =>
          match parseEventsF lines min_speed time_interval fuel
              (stopWhile lines (speedBelow min_speed) index + 1) with
          | none => none
          | some rest => some (ev :: rest)
      else parseEventsF lines min_speed time_interval fuel (index + 1)
    else some []

/-- `parse_events` on an already-built segment list (the `lines` branch of the source;
`lines.length` fuel suffices since the outer index strictly increases each iteration). -/
def parseEvents (lines : List TrackSegment) (min_speed time_interval : ℚ) :
    Option (List ExerciseEvent) :=
  parseEventsF lines min_speed time_interval lines.length 0

/-! ## The segment builder (`__data_to_lines`, source lines 39-75) -/

/-- The point built by `__data_to_lines` for sample `k`: latitude, longitude and time
from the parallel arrays; `elevation` and `heartrate` attached exactly when their array
matches `positions` in length.  The `distance` attribute is first set from `distances`
(when its length matches) and then overwritten from `speeds` (when that length matches),
mirroring source lines 61-67. -/
def mkPoint (d : TcxData) (k : ℕ) : TrackPoint :=
  { latitude := (d.positions.getD k (0, 0)).1
    longitude := (d.positions.getD k (0, 0)).2
    time := d.timestamps.getD k 0
    elevation :=
      if d.altitudes.length = d.positions.length then some (d.altitudes.getD k 0) else none
    heartrate :=
      if d.heartrates.length = d.positions.length then some (d.heartrates.getD k 0) else none
    distance :=
      let fromDistances :=
        if d.distances.length = d.positions.length then some (d.distances.getD k 0) else none
      if d.speeds.length = d.positions.length then some (d.speeds.getD k 0)
      else fromDistances }

/-- The `for i in range(len(positions))` loop of `__data_to_lines`, with fuel: sample
index `i` is skipped when `0`, otherwise a segment from sample `i-1` to sample `i` is
appended; `prev_speed` is `lines[-1].speed` when `i > 1` and `None` otherwise.
The segment's own speed is supplied by `speedFn` — modelled from the spec: the
`TrackSegment` constructor (outside `src/`) derives the speed from its two points. -/
def dataToLinesLoop (speedFn : TrackPoint → TrackPoint → Speed) (d : TcxData) :
    ℕ → ℕ → List TrackSegment → List TrackSegment
  | 0, _, lines => lines
  | fuel + 1, i, lines =>
    if i < d.positions.length then
      if i ≠ 0 then
        let point_a := mkPoint d (i - 1)
        let point_b := mkPoint d i
        let prev_speed : Option Speed :=
          if 1 < i then some ((lines.getLastD default).speed) else none
        let ts : TrackSegment :=
          { point_a := point_a, point_b := point_b,
            speed := speedFn point_a point_b, prev_speed := prev_speed }
        dataToLinesLoop speedFn d fuel (i + 1) (lines ++ [ts])
      else dataToLinesLoop speedFn d fuel (i + 1) lines
    else lines

/-- `__data_to_lines`: build the segment list from a raw track record. -/
def dataToLines (speedFn : TrackPoint → TrackPoint → Speed) (d : TcxData) :
    List TrackSegment :=
  dataToLinesLoop speedFn d d.positions.length 0 []

/-- `parse_events` on a raw track record (the `type(lines) is dict` branch,
source lines 102-103). -/
def parseEventsData (speedFn : TrackPoint → TrackPoint → Speed) (d : TcxData)
    (min_speed time_interval : ℚ) : Option (List ExerciseEvent) :=
  parseEvents (dataToLines speedFn d) min_speed time_interval

/-! ## The classifier (`classify_event`, source lines 142-162) -/

/-- A candidate feature returned by the external Overpass query (a node with a
latitude and a longitude; the query itself is an external collaborator). -/
structure OsmNode where
  lat : ℚ
  lon : ℚ
deriving DecidableEq, Repr

/-- A failure of the external feature service (network error, timeout), which in the
source surfaces as an exception raised by `op.identify_intersections`. -/
inductive ServiceError where
  | networkError
  | timeout
deriving DecidableEq, Repr

/-- `classify_event`: the external query result is a parameter (`Except` models the
exception channel of `op.identify_intersections`; the geodesic `distance.distance(...)
.meters` computation of geopy is the parameter `dist`).  The source has no
`try`/`except`, so a service failure propagates out as `.error`.  Otherwise the nested
loops over the core-run segments and the candidate nodes track a running minimum
(initially `1000000`) and, whenever `calculated_distance < 22` and strictly below the
running minimum, overwrite `event.event_detail` with
`EventDetail(EventLocation(longitude=node.lat, latitude=node.lon), INTERSECTION)` —
note the source passes the node's latitude to the `longitude` keyword and vice versa. -/
def classifyEvent (dist : ℚ × ℚ → ℚ × ℚ → ℚ)
    (service : Except ServiceError (List OsmNode)) (event : ExerciseEvent) :
    Except ServiceError ExerciseEvent :=
  match service with
  | .error err => .error err
  | .ok nodes =>
    let final :=
      event.event.foldl (fun st seg =>
        nodes.foldl (fun st node =>
          let event_location := (seg.point_a.latitude, seg.point_a.longitude)
          let intersection_location := (node.lat, node.lon)
          let calculated_distance := dist event_location intersection_location
          if calculated_distance < 22 ∧ calculated_distance < st.1 then
            (calculated_distance,
             { st.2 with
                event_detail :=
                  some { location := { latitude := node.lon, longitude := node.lat }
                         type := EventDetailType.INTERSECTION } })
          else st) st)
        ((1000000 : ℚ), event)
    .ok final.2

/-! ## Predicates used in the spec's properties -/

/-- Executable check that adjacent values strictly increase. -/
def pairwiseLtBool : List ℚ → Bool
  | [] => true
  | [_] => true
  | x :: y :: rest => decide (x < y) && pairwiseLtBool (y :: rest)

/-- Executable check that adjacent values never decrease. -/
def pairwiseLeBool : List ℚ → Bool
  | [] => true
  | [_] => true
  | x :: y :: rest => decide (x ≤ y) && pairwiseLeBool (y :: rest)

/-- The segments' start times (`point_a.time`) are strictly increasing. -/
def strictlyIncreasingTimes (lines : List TrackSegment) : Prop :=
  List.Chain' (· < ·) (lines.map (fun s => s.point_a.time))

/-- Chronologically non-decreasing segment start times. -/
def chronNonDecreasing (segs : List TrackSegment) : Prop :=
  List.Chain' (· ≤ ·) (segs.map (fun s => s.point_a.time))

theorem pairwiseLtBool_iff (l : List ℚ) :
    pairwiseLtBool l = true ↔ List.Chain' (· < ·) l := by
  induction l with
  | nil => simp [pairwiseLtBool]
  | cons x rest ih =>
    cases rest with
    | nil => simp [pairwiseLtBool]
    | cons y rest' =>
      simp only [pairwiseLtBool, List.chain'_cons, Bool.and_eq_true, decide_eq_true_iff]
      exact and_congr Iff.rfl ih

theorem pairwiseLeBool_iff (l : List ℚ) :
    pairwiseLeBool l = true ↔ List.Chain' (· ≤ ·) l := by
  induction l with
  | nil => simp [pairwiseLeBool]
  | cons x rest ih =>
    cases rest with
    | nil => simp [pairwiseLeBool]
    | cons y rest' =>
      simp only [pairwiseLeBool, List.chain'_cons, Bool.and_eq_true, decide_eq_true_iff]
      exact and_congr Iff.rfl ih

instance (lines : List TrackSegment) : Decidable (strictlyIncreasingTimes lines) :=
  decidable_of_iff (pairwiseLtBool (lines.map (fun s => s.point_a.time)) = true)
    (pairwiseLtBool_iff (lines.map (fun s => s.point_a.time)))

instance (segs : List TrackSegment) : Decidable (chronNonDecreasing segs) :=
  decidable_of_iff (pairwiseLeBool (segs.map (fun s => s.point_a.time)) = true)
    (pairwiseLeBool_iff (segs.map (fun s => s.point_a.time)))

/-! ## Concrete inputs used by witnesses and counterexamples -/

/-- A segment at start time `t` with speed `spd` km/h (endpoints one second apart). -/
def demoSeg (t spd : ℚ) : TrackSegment :=
  { point_a := { latitude := 0, longitude := 0, time := t,
                 elevation := none, heartrate := none, distance := none }
    point_b := { latitude := 0, longitude := 0, time := t + 1,
                 elevation := none, heartrate := none, distance := none }
    speed := { km := spd }
    prev_speed := none }

/-- One segment, below a threshold of 2 km/h. -/
def demoLines1 : List TrackSegment := [demoSeg 0 1]

/-- Two segments, both below a threshold of 2 km/h. -/
def demoLines2 : List TrackSegment := [demoSeg 0 1, demoSeg 1 1]

/-- The single event `parse_events` produces on `demoLines1` (threshold 2, window 60):
its run is the whole one-segment sequence, its `pre_event` contains that segment. -/
def demoEvent1 : ExerciseEvent :=
  { pre_event := [demoSeg 0 1], event := [demoSeg 0 1], post_event := [],
    event_type := EventType.EXERCISE_START, event_detail := none }

/-- The single event `parse_events` produces on `demoLines2` (threshold 2, window 60):
its run spans the whole sequence, so it starts at index 0 and ends at the last index. -/
def demoEvent2 : ExerciseEvent :=
  { pre_event := [demoSeg 0 1], event := demoLines2, post_event := [],
    event_type := EventType.EXERCISE_START, event_detail := none }

/-- A constant derived-speed function for exercising the segment builder. -/
def demoSpeedFn : TrackPoint → TrackPoint → Speed := fun _ _ => { km := 7 }

/-- Three samples whose `distances` and `speeds` arrays both match the positions
length (and differ from each other). -/
def demoTcx : TcxData :=
  { positions := [(0, 0), (0, 1), (0, 2)]
    timestamps := [0, 1, 2]
    altitudes := []
    heartrates := []
    distances := [5, 6, 7]
    speeds := [9, 10, 11] }

/-- A pause event with a single core-run segment, not yet classified. -/
def demoPauseEvent : ExerciseEvent :=
  { pre_event := [], event := [demoSeg 0 1], post_event := [],
    event_type := EventType.EXERCISE_PAUSE, event_detail := none }

/-- A constant stand-in for the external geodesic distance (10 meters). -/
def demoDist : ℚ × ℚ → ℚ × ℚ → ℚ := fun _ _ => 10

/-- A candidate feature whose latitude and longitude differ. -/
def demoNode : OsmNode := { lat := 47, lon := 16 }

/-! ## Scanner lemmas -/

theorem stopWhileF_ge (lines : List TrackSegment) (P : TrackSegment → Bool) :
    ∀ fuel i, i ≤ stopWhileF lines P fuel i := by
  intro fuel
  induction fuel with
  | zero => intro i; simp [stopWhileF]
  | succ fuel ih =>
    intro i
    simp only [stopWhileF]
    by_cases hl : i < lines.length
    · rw [if_pos hl]
      by_cases hP : P (lines.getD i default) = true
      · rw [if_pos hP]
        exact le_trans (Nat.le_succ i) (ih (i + 1))
      · rw [if_neg hP]
    · rw [if_neg hl]

theorem stopWhileF_le (lines : List TrackSegment) (P : TrackSegment → Bool) :
    ∀ fuel i, i ≤ lines.length → stopWhileF lines P fuel i ≤ lines.length := by
  intro fuel
  induction fuel with
  | zero => intro i h; simpa [stopWhileF] using h
  | succ fuel ih =>
    intro i h
    simp only [stopWhileF]
    by_cases hl : i < lines.length
    · rw [if_pos hl]
      by_cases hP : P (lines.getD i default) = true
      · rw [if_pos hP]
        exact ih (i + 1) hl
      · rw [if_neg hP]; exact h
    · rw [if_neg hl]; exact h

theorem stopWhileF_mem (lines : List TrackSegment) (P : TrackSegment → Bool) :
    ∀ fuel i k, i ≤ k → k < stopWhileF lines P fuel i →
      k < lines.length ∧ P (lines.getD k default) = true := by
  intro fuel
  induction fuel with
  | zero =>
    intro i k hik hk
    simp only [stopWhileF] at hk
    omega
  | succ fuel ih =>
    intro i k hik hk
    simp only [stopWhileF] at hk
    by_cases hl : i < lines.length
    · rw [if_pos hl] at hk
      by_cases hP : P (lines.getD i default) = true
      · rw [if_pos hP] at hk
        rcases Nat.eq_or_lt_of_le hik with rfl | hik'
        · exact ⟨hl, hP⟩
        · exact ih (i + 1) k hik' hk
      · rw [if_neg hP] at hk; omega
    · rw [if_neg hl] at hk; omega

theorem stopWhileF_stop (lines : List TrackSegment) (P : TrackSegment → Bool) :
    ∀ fuel i, lines.length - i ≤ fuel → stopWhileF lines P fuel i < lines.length →
      P (lines.getD (stopWhileF lines P fuel i) default) = false := by
  intro fuel
  induction fuel with
  | zero =>
    intro i hf hlt
    simp only [stopWhileF] at hlt
    exact absurd hlt (by omega)
  | succ fuel ih =>
    intro i hf hlt
    simp only [stopWhileF] at hlt ⊢
    by_cases hl : i < lines.length
    · rw [if_pos hl] at hlt ⊢
      by_cases hP : P (lines.getD i default) = true
      · rw [if_pos hP] at hlt ⊢
        exact ih (i + 1) (by omega) hlt
      · rw [if_neg hP] at hlt ⊢
        rw [Bool.not_eq_true] at hP
        exact hP
    · rw [if_neg hl] at hlt
      exact absurd hlt hl

theorem collectWhileF_eq (lines : List TrackSegment) (P : TrackSegment → Bool) :
    ∀ fuel i, collectWhileF lines P fuel i =
      (List.range' i (stopWhileF lines P fuel i - i)).map (fun k => lines.getD k default) := by
  intro fuel
  induction fuel with
  | zero => intro i; simp [collectWhileF, stopWhileF]
  | succ fuel ih =>
    intro i
    simp only [collectWhileF, stopWhileF]
    by_cases hl : i < lines.length
    · rw [if_pos hl, if_pos hl]
      by_cases hP : P (lines.getD i default) = true
      · rw [if_pos hP, if_pos hP, ih (i + 1)]
        have h1 : i + 1 ≤ stopWhileF lines P fuel (i + 1) := stopWhileF_ge lines P fuel (i + 1)
        have h2 : stopWhileF lines P fuel (i + 1) - i
            = (stopWhileF lines P fuel (i + 1) - (i + 1)) + 1 := by omega
        rw [h2, List.range'_succ]
        simp
      · rw [if_neg hP, if_neg hP]; simp
    · rw [if_neg hl, if_neg hl]; simp

theorem skipWhileF_spec (lines : List TrackSegment) (P : TrackSegment → Bool) :
    ∀ fuel i p, skipWhileF lines P fuel i = some p →
      i ≤ p ∧ p < lines.length ∧ P (lines.getD p default) = false ∧
        ∀ k, i ≤ k → k < p → P (lines.getD k default) = true := by
  intro fuel
  induction fuel with
  | zero => intro i p hp; simp [skipWhileF] at hp
  | succ fuel ih =>
    intro i p hp
    simp only [skipWhileF] at hp
    by_cases hl : i < lines.length
    · rw [if_pos hl] at hp
      by_cases hP : P (lines.getD i default) = true
      · rw [if_pos hP] at hp
        obtain ⟨h1, h2, h3, h4⟩ := ih (i + 1) p hp
        refine ⟨by omega, h2, h3, ?_⟩
        intro k hik hkp
        rcases Nat.eq_or_lt_of_le hik with rfl | hik'
        · exact hP
        · exact h4 k hik' hkp
      · rw [if_neg hP] at hp
        obtain rfl := Option.some.inj hp
        rw [Bool.not_eq_true] at hP
        exact ⟨le_refl i, hl, hP, fun k hik hkp => absurd (lt_of_le_of_lt hik hkp) (lt_irrefl i)⟩
    · rw [if_neg hl] at hp
      exact absurd hp (by simp)

theorem skipWhileF_isSome (lines : List TrackSegment) (P : TrackSegment → Bool) :
    ∀ fuel i k, i ≤ k → k < lines.length → P (lines.getD k default) = false →
      k - i < fuel → ∃ p, skipWhileF lines P fuel i = some p ∧ p ≤ k := by
  intro fuel
  induction fuel with
  | zero => intro i k _ _ _ hf; omega
  | succ fuel ih =>
    intro i k hik hk hPk hf
    have hl : i < lines.length := lt_of_le_of_lt hik hk
    simp only [skipWhileF]
    rw [if_pos hl]
    by_cases hP : P (lines.getD i default) = true
    · rw [if_pos hP]
      have hik' : i < k := by
        rcases Nat.eq_or_lt_of_le hik with rfl | h
        · rw [hPk] at hP; exact absurd hP (by simp)
        · exact h
      exact ih (i + 1) k hik' hk hPk (by omega)
    · rw [if_neg hP]
      exact ⟨i, rfl, hik⟩

/-! Wrapper corollaries: the wrappers supply fuel `lines.length - i`
(resp. `lines.length + 1 - i`), which meets the fuel bounds above. -/

theorem stopWhile_ge (lines : List TrackSegment) (P : TrackSegment → Bool) (i : ℕ) :
    i ≤ stopWhile lines P i :=
  stopWhileF_ge lines P (lines.length - i) i

theorem stopWhile_le (lines : List TrackSegment) (P : TrackSegment → Bool) (i : ℕ)
    (h : i ≤ lines.length) : stopWhile lines P i ≤ lines.length :=
  stopWhileF_le lines P (lines.length - i) i h

theorem stopWhile_mem (lines : List TrackSegment) (P : TrackSegment → Bool) {i k : ℕ}
    (hik : i ≤ k) (hk : k < stopWhile lines P i) :
    k < lines.length ∧ P (lines.getD k default) = true :=
  stopWhileF_mem lines P (lines.length - i) i k hik hk

theorem stopWhile_stop (lines : List TrackSegment) (P : TrackSegment → Bool) {i : ℕ}
    (h : stopWhile lines P i < lines.length) :
    P (lines.getD (stopWhile lines P i) default) = false :=
  stopWhileF_stop lines P (lines.length - i) i (le_refl _) h

theorem stopWhile_lt (lines : List TrackSegment) (P : TrackSegment → Bool) {i : ℕ}
    (hl : i < lines.length) (hP : P (lines.getD i default) = true) :
    i < stopWhile lines P i := by
  unfold stopWhile
  have h2 : lines.length - i = (lines.length - (i + 1)) + 1 := by omega
  rw [h2]
  simp only [stopWhileF]
  rw [if_pos hl, if_pos hP]
  exact lt_of_lt_of_le (Nat.lt_succ_self i) (stopWhileF_ge lines P _ (i + 1))

theorem collectWhile_eq (lines : List TrackSegment) (P : TrackSegment → Bool) (i : ℕ) :
    collectWhile lines P i =
      (List.range' i (stopWhile lines P i - i)).map (fun k => lines.getD k default) :=
  collectWhileF_eq lines P (lines.length - i) i

theorem skipWhile_spec (lines : List TrackSegment) (P : TrackSegment → Bool) {i p : ℕ}
    (hp : skipWhile lines P i = some p) :
    i ≤ p ∧ p < lines.length ∧ P (lines.getD p default) = false ∧
      ∀ k, i ≤ k → k < p → P (lines.getD k default) = true :=
  skipWhileF_spec lines P (lines.length + 1 - i) i p hp

theorem skipWhile_isSome (lines : List TrackSegment) (P : TrackSegment → Bool) {k : ℕ}
    (hk : k < lines.length) (hPk : P (lines.getD k default) = false) :
    ∃ p, skipWhile lines P 0 = some p ∧ p ≤ k :=
  skipWhileF_isSome lines P (lines.length + 1) 0 k (Nat.zero_le k) hk hPk (by omega)

/-! ## Characterization of `parse_events`

Every event in the scanner's output is `mkEventAt` of some run-start index `a`:
`lines[a]` is below threshold and `lines[a-1]` (when `a > 0`) is not — the outer loop
only opens a run right after a segment it checked and found at or above threshold
(or at index 0). -/

theorem parseEventsF_mem (lines : List TrackSegment) (min_speed time_interval : ℚ) :
    ∀ fuel index evs, parseEventsF lines min_speed time_interval fuel index = some evs →
      (index = 0 ∨ lines.length ≤ index - 1 ∨
        speedBelow min_speed (lines.getD (index - 1) default) = false) →
      ∀ ev ∈ evs, ∃ a, index ≤ a ∧ a < lines.length ∧
        speedBelow min_speed (lines.getD a default) = true ∧
        (a = 0 ∨ speedBelow min_speed (lines.getD (a - 1) default) = false) ∧
        mkEventAt lines min_speed time_interval a = some ev := by
  intro fuel
  induction fuel with
  | zero =>
    intro index evs hevs _ ev hev
    simp only [parseEventsF] at hevs
    obtain rfl := Option.some.inj hevs
    exact absurd hev (List.not_mem_nil ev)
  | succ fuel ih =>
    intro index evs hevs hinv ev hev
    simp only [parseEventsF] at hevs
    by_cases hl : index < lines.length
    · rw [if_pos hl] at hevs
      by_cases hP : speedBelow min_speed (lines.getD index default) = true
      · rw [if_pos hP] at hevs
        cases hmk : mkEventAt lines min_speed time_interval index with
        | none => rw [hmk] at hevs; exact absurd hevs (by simp)
        | some ev₀ =>
          rw [hmk] at hevs
          cases hrec : parseEventsF lines min_speed time_interval fuel
              (stopWhile lines (speedBelow min_speed) index + 1) with
          | none => rw [hrec] at hevs; exact absurd hevs (by simp)
          | some rest =>
            rw [hrec] at hevs
            obtain rfl := Option.some.inj hevs
            rcases List.mem_cons.mp hev with rfl | hev'
            · refine ⟨index, le_refl index, hl, hP, ?_, hmk⟩
              rcases hinv with h0 | hge | hfalse
              · exact Or.inl h0
              · exact absurd hl (by omega)
              · exact Or.inr hfalse
            · have hstop := stopWhile_ge lines (speedBelow min_speed) index
              have hinv' : stopWhile lines (speedBelow min_speed) index + 1 = 0 ∨
                  lines.length ≤ stopWhile lines (speedBelow min_speed) index + 1 - 1 ∨
                  speedBelow min_speed (lines.getD
                    (stopWhile lines (speedBelow min_speed) index + 1 - 1) default) = false := by
                simp only [Nat.add_sub_cancel]
                by_cases hs : stopWhile lines (speedBelow min_speed) index < lines.length
                · exact Or.inr (Or.inr (stopWhile_stop lines (speedBelow min_speed) hs))
                · exact Or.inr (Or.inl (by omega))
              obtain ⟨a, ha1, ha2, ha3, ha4, ha5⟩ := ih _ rest hrec hinv' ev hev'
              exact ⟨a, by omega, ha2, ha3, ha4, ha5⟩
      · rw [if_neg hP] at hevs
        have hinv' : index + 1 = 0 ∨ lines.length ≤ index + 1 - 1 ∨
            speedBelow min_speed (lines.getD (index + 1 - 1) default) = false := by
          simp only [Nat.add_sub_cancel]
          rw [Bool.not_eq_true] at hP
          exact Or.inr (Or.inr hP)
        obtain ⟨a, ha1, ha2, ha3, ha4, ha5⟩ := ih (index + 1) evs hevs hinv' ev hev
        exact ⟨a, by omega, ha2, ha3, ha4, ha5⟩
    · rw [if_neg hl] at hevs
      obtain rfl := Option.some.inj hevs
      exact absurd hev (List.not_mem_nil ev)

/-- Every event returned by `parse_events` is the event of a run start `a`:
below threshold at `a`, at-or-above threshold at `a - 1` (unless `a = 0`). -/
theorem parseEvents_mem (lines : List TrackSegment) (min_speed time_interval : ℚ)
    (evs : List ExerciseEvent) (ev : ExerciseEvent)
    (hevs : parseEvents lines min_speed time_interval = some evs) (hev : ev ∈ evs) :
    ∃ a, a < lines.length ∧
      speedBelow min_speed (lines.getD a default) = true ∧
      (a = 0 ∨ speedBelow min_speed (lines.getD (a - 1) default) = false) ∧
      mkEventAt lines min_speed time_interval a = some ev := by
  obtain ⟨a, _, h2, h3, h4, h5⟩ :=
    parseEventsF_mem lines min_speed time_interval lines.length 0 evs hevs (Or.inl rfl) ev hev
  exact ⟨a, h2, h3, h4, h5⟩

/-- Destructuring a produced event: the explicit form of its four components. -/
theorem mkEventAt_eq_some (lines : List TrackSegment) (min_speed time_interval : ℚ)
    (a : ℕ) (ev : ExerciseEvent)
    (h : mkEventAt lines min_speed time_interval a = some ev) :
    ∃ p, skipWhile lines
        (fun s => decide (s.point_a.time <
          (lines.getD a default).point_a.time - time_interval)) 0 = some p ∧
      ev = { pre_event := collectWhile lines
               (fun s => decide (s.point_a.time ≤ (lines.getD a default).point_a.time)) p
             event := collectWhile lines (speedBelow min_speed) a
             post_event := collectWhile lines
               (fun s => decide (s.point_a.time <
                 (lines.getD (stopWhile lines (speedBelow min_speed) a - 1) default).point_b.time
                   + (time_interval + 1)))
               (stopWhile lines (speedBelow min_speed) a)
             event_type := determineEventType a
               (stopWhile lines (speedBelow min_speed) a - 1) lines.length
             event_detail := none } := by
  simp only [mkEventAt] at h
  cases hp : skipWhile lines
      (fun s => decide (s.point_a.time <
        (lines.getD a default).point_a.time - time_interval)) 0 with
  | none => rw [hp] at h; exact absurd h (by simp)
  | some p =>
    rw [hp] at h
    exact ⟨p, rfl, (Option.some.inj h).symm⟩

/-- With a non-negative time window the pre-window skip loop always finds a boundary at
or before the run start (whose `point_a.time` equals `mid_start`), so `mkEventAt`
succeeds. -/
theorem mkEventAt_isSome (lines : List TrackSegment) (min_speed time_interval : ℚ)
    (a : ℕ) (ha : a < lines.length) (hti : 0 ≤ time_interval) :
    ∃ ev, mkEventAt lines min_speed time_interval a = some ev := by
  have hPa : decide ((lines.getD a default).point_a.time <
      (lines.getD a default).point_a.time - time_interval) = false := by
    simp only [decide_eq_false_iff_not, not_lt]
    linarith
  obtain ⟨p, hp, _⟩ := skipWhile_isSome lines
    (fun s => decide (s.point_a.time <
      (lines.getD a default).point_a.time - time_interval)) ha hPa
  rw [← Option.isSome_iff_exists]
  simp only [mkEventAt]
  rw [hp]
  rfl

theorem parseEventsF_total (lines : List TrackSegment) (min_speed time_interval : ℚ)
    (hti : 0 ≤ time_interval) :
    ∀ fuel index, ∃ evs, parseEventsF lines min_speed time_interval fuel index = some evs := by
  intro fuel
  induction fuel with
  | zero => intro index; exact ⟨[], rfl⟩
  | succ fuel ih =>
    intro index
    simp only [parseEventsF]
    by_cases hl : index < lines.length
    · rw [if_pos hl]
      by_cases hP : speedBelow min_speed (lines.getD index default) = true
      · rw [if_pos hP]
        obtain ⟨ev, hev⟩ := mkEventAt_isSome lines min_speed time_interval index hl hti
        rw [hev]
        obtain ⟨rest, hrest⟩ := ih (stopWhile lines (speedBelow min_speed) index + 1)
        rw [hrest]
        exact ⟨ev :: rest, rfl⟩
      · rw [if_neg hP]
        exact ih (index + 1)
    · rw [if_neg hl]
      exact ⟨[], rfl⟩

/-- With a non-negative time window `parse_events` never hits the pre-window
out-of-bounds access. -/
theorem parseEvents_total (lines : List TrackSegment) (min_speed time_interval : ℚ)
    (hti : 0 ≤ time_interval) :
    ∃ evs, parseEvents lines min_speed time_interval = some evs :=
  parseEventsF_total lines min_speed time_interval hti lines.length 0

/-! ## Closed form of the segment builder -/

/-- The segment `__data_to_lines` builds for the consecutive samples `k` and `k + 1`
(it is appended at loop iteration `i = k + 1`): `prev_speed` is the previous segment's
derived speed for every `k ≥ 1` and `None` only for the first segment. -/
def builtSegment (speedFn : TrackPoint → TrackPoint → Speed) (d : TcxData) (k : ℕ) :
    TrackSegment :=
  { point_a := mkPoint d k
    point_b := mkPoint d (k + 1)
    speed := speedFn (mkPoint d k) (mkPoint d (k + 1))
    prev_speed :=
      if k = 0 then none else some (speedFn (mkPoint d (k - 1)) (mkPoint d k)) }

theorem dataToLinesLoop_inv (speedFn : TrackPoint → TrackPoint → Speed) (d : TcxData) :
    ∀ fuel i, fuel + i = d.positions.length → 1 ≤ i →
      dataToLinesLoop speedFn d fuel i ((List.range (i - 1)).map (builtSegment speedFn d)) =
        (List.range (d.positions.length - 1)).map (builtSegment speedFn d) := by
  intro fuel
  induction fuel with
  | zero =>
    intro i hfi _
    have hi : i - 1 = d.positions.length - 1 := by omega
    simp only [dataToLinesLoop, hi]
  | succ fuel ih =>
    intro i hfi h1
    have hl : i < d.positions.length := by omega
    have hne : i ≠ 0 := by omega
    simp only [dataToLinesLoop]
    rw [if_pos hl, if_pos hne]
    have step : ∀ ts : TrackSegment, ts = builtSegment speedFn d (i - 1) →
        dataToLinesLoop speedFn d fuel (i + 1)
          ((List.range (i - 1)).map (builtSegment speedFn d) ++ [ts]) =
          (List.range (d.positions.length - 1)).map (builtSegment speedFn d) := by
      intro ts hts
      subst hts
      have h3 : (i + 1) - 1 = (i - 1) + 1 := by omega
      have h2 : (List.range (i - 1)).map (builtSegment speedFn d)
            ++ [builtSegment speedFn d (i - 1)] =
          (List.range ((i + 1) - 1)).map (builtSegment speedFn d) := by
        rw [h3, List.range_succ, List.map_append, List.map_singleton]
      rw [h2]
      exact ih (i + 1) (by omega) (by omega)
    apply step
    by_cases h2 : 1 < i
    · rw [if_pos h2]
      have hm : i - 1 = (i - 2) + 1 := by omega
      have hgl : ((List.range (i - 1)).map (builtSegment speedFn d)).getLastD default =
          builtSegment speedFn d (i - 2) := by
        rw [hm, List.range_succ, List.map_append, List.map_singleton]
        exact List.getLastD_concat _ _ _
      rw [hgl]
      have e1 : i - 2 + 1 = i - 1 := by omega
      have e2 : i - 1 + 1 = i := by omega
      have e3 : i - 1 - 1 = i - 2 := by omega
      simp only [builtSegment, e1, e2, e3, if_neg (show ¬ i - 1 = 0 by omega)]
    · have hi1 : i = 1 := by omega
      subst hi1
      simp [builtSegment]

/-- `__data_to_lines` produces exactly the segments `builtSegment 0, …,
builtSegment (N - 2)` where `N` is the number of position samples. -/
theorem dataToLines_eq (speedFn : TrackPoint → TrackPoint → Speed) (d : TcxData) :
    dataToLines speedFn d =
      (List.range (d.positions.length - 1)).map (builtSegment speedFn d) := by
  unfold dataToLines
  cases hN : d.positions.length with
  | zero => simp [dataToLinesLoop, hN]
  | succ n =>
    simp only [dataToLinesLoop]
    rw [if_pos (by omega : 0 < d.positions.length)]
    rw [if_neg (by simp : ¬ (0 : ℕ) ≠ 0)]
    have h0 : ([] : List TrackSegment) = (List.range (1 - 1)).map (builtSegment speedFn d) := by
      simp
    rw [h0]
    have hinv := dataToLinesLoop_inv speedFn d n 1 (by omega) (le_refl 1)
    rw [hN] at hinv
    simpa using hinv

/-! ## Monotonicity and chain helpers -/

theorem strictlyIncreasingTimes_getD (lines : List TrackSegment)
    (h : strictlyIncreasingTimes lines) {k l : ℕ} (hkl : k < l) (hl : l < lines.length) :
    (lines.getD k default).point_a.time < (lines.getD l default).point_a.time := by
  unfold strictlyIncreasingTimes at h
  rw [List.chain'_iff_pairwise, List.pairwise_iff_get] at h
  have hk : k < lines.length := lt_trans hkl hl
  have hmlen : (lines.map (fun s => s.point_a.time)).length = lines.length := by simp
  have := h ⟨k, by omega⟩ ⟨l, by omega⟩ (by simpa using hkl)
  rw [List.getD_eq_getElem _ _ hk, List.getD_eq_getElem _ _ hl]
  simpa [List.getElem_map] using this

theorem strictlyIncreasingTimes_getD_le (lines : List TrackSegment)
    (h : strictlyIncreasingTimes lines) {k l : ℕ} (hkl : k ≤ l) (hl : l < lines.length) :
    (lines.getD k default).point_a.time ≤ (lines.getD l default).point_a.time := by
  rcases Nat.eq_or_lt_of_le hkl with rfl | hlt
  · exact le_refl _
  · exact le_of_lt (strictlyIncreasingTimes_getD lines h hlt hl)

theorem chain'_range' (R : ℕ → ℕ → Prop) :
    ∀ n s, (∀ k, s ≤ k → k + 1 < s + n → R k (k + 1)) →
      List.Chain' R (List.range' s n) := by
  intro n
  induction n with
  | zero => intro s _; simp
  | succ n ih =>
    intro s hR
    rw [List.range'_succ]
    cases n with
    | zero => simp
    | succ m =>
      rw [List.range'_succ, List.chain'_cons]
      constructor
      · exact hR s (le_refl s) (by omega)
      · rw [← List.range'_succ]
        exact ih (s + 1) (fun k hk hk2 => hR k (by omega) (by omega))

theorem range'_getLast? : ∀ n s, (List.range' s (n + 1)).getLast? = some (s + n) := by
  intro n
  induction n with
  | zero => intro s; simp
  | succ n ih =>
    intro s
    rw [List.range'_succ, List.range'_succ, List.getLast?_cons_cons, ← List.range'_succ,
      ih (s + 1)]
    congr 1
    omega

/-! ## Claim theorems -/

/-- C1: every `ExerciseEvent` returned by `parse_events` has a non-empty `event` list,
every segment in that list has speed strictly below the threshold, and the event is one
maximal contiguous run `a..b` of such segments: the segment immediately before the run
(if any) and the segment immediately after it (if any) have speed at or above the
threshold. -/
theorem C1_events_are_maximal_runs (lines : List TrackSegment) (min_speed time_interval : ℚ)
    (evs : List ExerciseEvent) (ev : ExerciseEvent)
    (hevs : parseEvents lines min_speed time_interval = some evs) (hev : ev ∈ evs) :
    ev.event ≠ [] ∧ (∀ s ∈ ev.event, s.speed.km < min_speed) ∧
      ∃ a b, a ≤ b ∧ b < lines.length ∧
        ev.event = (List.range' a (b + 1 - a)).map (fun k => lines.getD k default) ∧
        (∀ k, a ≤ k → k ≤ b → (lines.getD k default).speed.km < min_speed) ∧
        (a = 0 ∨ ¬ (lines.getD (a - 1) default).speed.km < min_speed) ∧
        (b + 1 = lines.length ∨ ¬ (lines.getD (b + 1) default).speed.km < min_speed) := by
  obtain ⟨a, ha, hPa, hbnd, hmk⟩ :=
    parseEvents_mem lines min_speed time_interval evs ev hevs hev
  obtain ⟨p, hp, rfl⟩ := mkEventAt_eq_some lines min_speed time_interval a _ hmk
  have hj1 : a < stopWhile lines (speedBelow min_speed) a := stopWhile_lt lines _ ha hPa
  have hj2 : stopWhile lines (speedBelow min_speed) a ≤ lines.length :=
    stopWhile_le lines _ a (le_of_lt ha)
  dsimp only
  rw [collectWhile_eq lines (speedBelow min_speed) a]
  refine ⟨?_, ?_, a, stopWhile lines (speedBelow min_speed) a - 1, by omega, by omega, ?_, ?_, ?_, ?_⟩
  · simp only [ne_eq, List.map_eq_nil_iff, List.range'_eq_nil]
    omega
  · intro s hs
    obtain ⟨k, hk, rfl⟩ := List.mem_map.mp hs
    rw [List.mem_range'] at hk
    obtain ⟨idx, hidx, rfl⟩ := hk
    have hmem := stopWhile_mem lines (speedBelow min_speed)
      (i := a) (k := a + 1 * idx) (by omega) (by omega)
    have := hmem.2
    simpa [speedBelow] using this
  · have hb1 : stopWhile lines (speedBelow min_speed) a - 1 + 1 - a =
        stopWhile lines (speedBelow min_speed) a - a := by omega
    rw [hb1]
  · intro k hk1 hk2
    have hmem := stopWhile_mem lines (speedBelow min_speed) (i := a) (k := k) hk1 (by omega)
    simpa [speedBelow] using hmem.2
  · rcases hbnd with h0 | hfalse
    · exact Or.inl h0
    · simpa [speedBelow] using Or.inr hfalse
  · by_cases hjl : stopWhile lines (speedBelow min_speed) a < lines.length
    · have := stopWhile_stop lines (speedBelow min_speed) hjl
      have hb2 : stopWhile lines (speedBelow min_speed) a - 1 + 1 =
          stopWhile lines (speedBelow min_speed) a := by omega
      rw [hb2]
      simpa [speedBelow] using Or.inr this
    · exact Or.inl (by omega)

section WitnessC1

attribute [local semireducible] Rat.sub Rat.add Rat.mul Rat.inv

/-- C1 witness: the hypotheses and conclusion of `C1_events_are_maximal_runs` hold at the
concrete one-segment input `demoLines1` with threshold 2 and window 60. -/
theorem C1_events_are_maximal_runs_witness :
    (parseEvents demoLines1 2 60 = some [demoEvent1] ∧ demoEvent1 ∈ [demoEvent1]) ∧
      (demoEvent1.event ≠ [] ∧ (∀ s ∈ demoEvent1.event, s.speed.km < 2) ∧
        ∃ a b, a ≤ b ∧ b < demoLines1.length ∧
          demoEvent1.event =
            (List.range' a (b + 1 - a)).map (fun k => demoLines1.getD k default) ∧
          (∀ k, a ≤ k → k ≤ b → (demoLines1.getD k default).speed.km < 2) ∧
          (a = 0 ∨ ¬ (demoLines1.getD (a - 1) default).speed.km < 2) ∧
          (b + 1 = demoLines1.length ∨ ¬ (demoLines1.getD (b + 1) default).speed.km < 2)) :=
  ⟨⟨by decide, by decide⟩,
    C1_events_are_maximal_runs demoLines1 2 60 [demoEvent1] demoEvent1 (by decide) (by decide)⟩

end WitnessC1

section CexC2

attribute [local semireducible] Rat.sub Rat.add Rat.mul Rat.inv

/-- C2 counterexample: on two segments that are both below the threshold, the single
produced event's run is the whole sequence — it ends at the last segment index — yet its
`event_type` is START, not STOP: the `index_start == 0` rule takes precedence. -/
theorem C2_counterexample :
    parseEvents demoLines2 2 60 = some [demoEvent2] ∧
      demoEvent2.event = demoLines2 ∧
      demoEvent2.event_type = EventType.EXERCISE_START ∧
      demoEvent2.event_type ≠ EventType.EXERCISE_STOP :=
  ⟨by decide, by decide, by decide, by decide⟩

end CexC2

/-- C2 (amended): event type is resolved by position, with START taking precedence —
a run starting at index 0 is START even when it also ends at the last index; otherwise
a run ending at the last index is STOP; every other run is PAUSE. -/
theorem C2_event_type_start_precedence (lines : List TrackSegment)
    (min_speed time_interval : ℚ) (evs : List ExerciseEvent) (ev : ExerciseEvent)
    (hevs : parseEvents lines min_speed time_interval = some evs) (hev : ev ∈ evs) :
    ∃ a b, a ≤ b ∧ b < lines.length ∧
      ev.event = (List.range' a (b + 1 - a)).map (fun k => lines.getD k default) ∧
      ev.event_type =
        (if a = 0 then EventType.EXERCISE_START
         else if b = lines.length - 1 then EventType.EXERCISE_STOP
         else EventType.EXERCISE_PAUSE) := by
  obtain ⟨a, ha, hPa, hbnd, hmk⟩ :=
    parseEvents_mem lines min_speed time_interval evs ev hevs hev
  obtain ⟨p, hp, rfl⟩ := mkEventAt_eq_some lines min_speed time_interval a _ hmk
  have hj1 : a < stopWhile lines (speedBelow min_speed) a := stopWhile_lt lines _ ha hPa
  have hj2 : stopWhile lines (speedBelow min_speed) a ≤ lines.length :=
    stopWhile_le lines _ a (le_of_lt ha)
  dsimp only
  rw [collectWhile_eq lines (speedBelow min_speed) a]
  refine ⟨a, stopWhile lines (speedBelow min_speed) a - 1, by omega, by omega, ?_, ?_⟩
  · have hb1 : stopWhile lines (speedBelow min_speed) a - 1 + 1 - a =
        stopWhile lines (speedBelow min_speed) a - a := by omega
    rw [hb1]
  · unfold determineEventType
    by_cases h0 : a = 0
    · rw [if_pos h0, if_pos h0]
    · rw [if_neg h0, if_neg h0]
      by_cases hb : stopWhile lines (speedBelow min_speed) a - 1 = lines.length - 1
      · rw [if_pos (show (lines.length : ℤ) - 1 ≤
            ((stopWhile lines (speedBelow min_speed) a - 1 : ℕ) : ℤ) by omega), if_pos hb]
      · rw [if_neg (show ¬ (lines.length : ℤ) - 1 ≤
            ((stopWhile lines (speedBelow min_speed) a - 1 : ℕ) : ℤ) by omega), if_neg hb]

section WitnessC2

attribute [local semireducible] Rat.sub Rat.add Rat.mul Rat.inv

/-- C2 witness: the amended type-resolution rule at the concrete input `demoLines2`. -/
theorem C2_event_type_start_precedence_witness :
    (parseEvents demoLines2 2 60 = some [demoEvent2] ∧ demoEvent2 ∈ [demoEvent2]) ∧
      ∃ a b, a ≤ b ∧ b < demoLines2.length ∧
        demoEvent2.event =
          (List.range' a (b + 1 - a)).map (fun k => demoLines2.getD k default) ∧
        demoEvent2.event_type =
          (if a = 0 then EventType.EXERCISE_START
           else if b = demoLines2.length - 1 then EventType.EXERCISE_STOP
           else EventType.EXERCISE_PAUSE) :=
  ⟨⟨by decide, by decide⟩,
    C2_event_type_start_precedence demoLines2 2 60 [demoEvent2] demoEvent2
      (by decide) (by decide)⟩

end WitnessC2

section WitnessC3

attribute [local semireducible] Rat.sub Rat.add Rat.mul Rat.inv

/-- C3 counterexample: for the event at the very first sample of `demoLines1`, the
source's pre-window loops put segment 0 into `pre_event` — it is not empty. -/
theorem C3_counterexample :
    parseEvents demoLines1 2 60 = some [demoEvent1] ∧
      demoEvent1.event = demoLines1 ∧
      demoEvent1.pre_event ≠ [] :=
  ⟨by decide, by decide, by decide⟩

end WitnessC3

/-- C3 (amended): with a non-negative time window the pre-window scan terminates without
indexing out of bounds (`parse_events` returns a result), and for an event whose run
begins at the very first segment (a START event) `pre_event` is non-empty — it begins
with segment 0 — rather than empty. -/
theorem C3_pre_window_safe (lines : List TrackSegment) (min_speed time_interval : ℚ)
    (hti : 0 ≤ time_interval) :
    (∃ evs, parseEvents lines min_speed time_interval = some evs) ∧
      ∀ evs ev, parseEvents lines min_speed time_interval = some evs → ev ∈ evs →
        ev.event_type = EventType.EXERCISE_START →
        ev.pre_event.head? = some (lines.getD 0 default) ∧ ev.pre_event ≠ [] := by
  refine ⟨parseEvents_total lines min_speed time_interval hti, ?_⟩
  intro evs ev hevs hev htype
  obtain ⟨a, ha, hPa, hbnd, hmk⟩ :=
    parseEvents_mem lines min_speed time_interval evs ev hevs hev
  obtain ⟨p, hp, rfl⟩ := mkEventAt_eq_some lines min_speed time_interval a _ hmk
  dsimp only at htype ⊢
  have ha0 : a = 0 := by
    by_contra h0
    unfold determineEventType at htype
    rw [if_neg h0] at htype
    by_cases hb : (lines.length : ℤ) - 1 ≤
        ((stopWhile lines (speedBelow min_speed) a - 1 : ℕ) : ℤ)
    · rw [if_pos hb] at htype; exact absurd htype (by decide)
    · rw [if_neg hb] at htype; exact absurd htype (by decide)
  subst ha0
  obtain ⟨hp0, hplen, hPp, hpall⟩ := skipWhile_spec lines _ hp
  have hpz : p = 0 := by
    by_contra hpz
    have hP0 := hpall 0 (Nat.zero_le 0) (by omega)
    simp only [decide_eq_true_iff] at hP0
    linarith
  subst hpz
  rw [collectWhile_eq lines
    (fun s => decide (s.point_a.time ≤ (lines.getD 0 default).point_a.time)) 0]
  have he : 0 < stopWhile lines
      (fun s => decide (s.point_a.time ≤ (lines.getD 0 default).point_a.time)) 0 := by
    apply stopWhile_lt lines _ ha
    simp
  constructor
  · rw [List.head?_map, List.head?_range', if_neg (show ¬ (stopWhile lines
      (fun s => decide (s.point_a.time ≤ (lines.getD 0 default).point_a.time)) 0 - 0 = 0)
      by omega)]
    rfl
  · simp only [ne_eq, List.map_eq_nil_iff, List.range'_eq_nil]
    omega

section WitnessC3b

attribute [local semireducible] Rat.sub Rat.add Rat.mul Rat.inv

/-- C3 witness: the amended statement applied at the concrete input `demoLines1`. -/
theorem C3_pre_window_safe_witness :
    (0 : ℚ) ≤ 60 ∧
      ((∃ evs, parseEvents demoLines1 2 60 = some evs) ∧
        ∀ evs ev, parseEvents demoLines1 2 60 = some evs → ev ∈ evs →
          ev.event_type = EventType.EXERCISE_START →
          ev.pre_event.head? = some (demoLines1.getD 0 default) ∧ ev.pre_event ≠ []) :=
  ⟨by decide, C3_pre_window_safe demoLines1 2 60 (by decide)⟩

end WitnessC3b

/-- Consecutive indices below `lines.length` have non-decreasing start times, so any
index slice maps to a `≤`-chain of start times. -/
theorem chain'_le_times_range' (lines : List TrackSegment)
    (hmono : strictlyIncreasingTimes lines) (s n : ℕ) (hsn : s + n ≤ lines.length) :
    List.Chain' (· ≤ ·)
      ((List.range' s n).map (fun k => (lines.getD k default).point_a.time)) := by
  rw [List.chain'_map]
  apply chain'_range'
  intro k hk1 hk2
  exact strictlyIncreasingTimes_getD_le lines hmono (Nat.le_succ k) (by omega)

/-- C4: for a segment sequence with strictly increasing start times, every produced
event's `pre_event ++ event ++ post_event` is chronologically non-decreasing in segment
start times. -/
theorem C4_window_concat_chronological (lines : List TrackSegment)
    (min_speed time_interval : ℚ) (evs : List ExerciseEvent) (ev : ExerciseEvent)
    (hmono : strictlyIncreasingTimes lines)
    (hevs : parseEvents lines min_speed time_interval = some evs) (hev : ev ∈ evs) :
    chronNonDecreasing (ev.pre_event ++ ev.event ++ ev.post_event) := by
  obtain ⟨a, ha, hPa, hbnd, hmk⟩ :=
    parseEvents_mem lines min_speed time_interval evs ev hevs hev
  obtain ⟨p, hp, rfl⟩ := mkEventAt_eq_some lines min_speed time_interval a _ hmk
  have hj1 : a < stopWhile lines (speedBelow min_speed) a := stopWhile_lt lines _ ha hPa
  have hj2 : stopWhile lines (speedBelow min_speed) a ≤ lines.length :=
    stopWhile_le lines _ a (le_of_lt ha)
  obtain ⟨hp0, hplen, hPp, hpall⟩ := skipWhile_spec lines _ hp
  have hep : p ≤ stopWhile lines
      (fun s => decide (s.point_a.time ≤ (lines.getD a default).point_a.time)) p :=
    stopWhile_ge lines _ p
  have hel : stopWhile lines
      (fun s => decide (s.point_a.time ≤ (lines.getD a default).point_a.time)) p ≤
        lines.length :=
    stopWhile_le lines _ p (le_of_lt hplen)
  have hqj : stopWhile lines (speedBelow min_speed) a ≤ stopWhile lines
      (fun s => decide (s.point_a.time <
        (lines.getD (stopWhile lines (speedBelow min_speed) a - 1) default).point_b.time
          + (time_interval + 1))) (stopWhile lines (speedBelow min_speed) a) :=
    stopWhile_ge lines _ _
  have hql : stopWhile lines
      (fun s => decide (s.point_a.time <
        (lines.getD (stopWhile lines (speedBelow min_speed) a - 1) default).point_b.time
          + (time_interval + 1))) (stopWhile lines (speedBelow min_speed) a) ≤
        lines.length :=
    stopWhile_le lines _ _ hj2
  dsimp only
  unfold chronNonDecreasing
  rw [collectWhile_eq lines (speedBelow min_speed) a,
    collectWhile_eq lines
      (fun s => decide (s.point_a.time ≤ (lines.getD a default).point_a.time)) p,
    collectWhile_eq lines
      (fun s => decide (s.point_a.time <
        (lines.getD (stopWhile lines (speedBelow min_speed) a - 1) default).point_b.time
          + (time_interval + 1))) (stopWhile lines (speedBelow min_speed) a),
    List.map_append, List.map_append, List.map_map, List.map_map, List.map_map]
  simp only [Function.comp_def]
  refine List.Chain'.append (List.Chain'.append ?_ ?_ ?_) ?_ ?_
  · exact chain'_le_times_range' lines hmono p _ (by omega)
  · exact chain'_le_times_range' lines hmono a _ (by omega)
  · -- junction between the pre window and the core run
    intro x hx y hy
    rw [List.getLast?_map] at hx
    rw [List.head?_map, List.head?_range'] at hy
    rw [if_neg (show ¬ stopWhile lines (speedBelow min_speed) a - a = 0 by omega)] at hy
    simp only [Option.map_some', Option.mem_def, Option.some.injEq] at hy
    cases hepn : stopWhile lines
        (fun s => decide (s.point_a.time ≤ (lines.getD a default).point_a.time)) p - p with
    | zero =>
      rw [hepn] at hx
      simp at hx
    | succ m =>
      rw [hepn, range'_getLast?] at hx
      simp only [Option.map_some', Option.mem_def, Option.some.injEq] at hx
      subst hx
      subst hy
      have hmem := stopWhile_mem lines
        (fun s => decide (s.point_a.time ≤ (lines.getD a default).point_a.time))
        (i := p) (k := p + m) (by omega) (by omega)
      simpa only [decide_eq_true_iff] using hmem.2
  · exact chain'_le_times_range' lines hmono (stopWhile lines (speedBelow min_speed) a) _
      (by omega)
  · -- junction between the core run and the post window
    intro x hx y hy
    rw [List.head?_map, List.head?_range'] at hy
    by_cases hq0 : stopWhile lines
        (fun s => decide (s.point_a.time <
          (lines.getD (stopWhile lines (speedBelow min_speed) a - 1) default).point_b.time
            + (time_interval + 1))) (stopWhile lines (speedBelow min_speed) a) -
          stopWhile lines (speedBelow min_speed) a = 0
    · rw [if_pos hq0] at hy
      simp at hy
    · rw [if_neg hq0] at hy
      simp only [Option.map_some', Option.mem_def, Option.some.injEq] at hy
      subst hy
      rw [List.getLast?_append, List.getLast?_map] at hx
      have hja : stopWhile lines (speedBelow min_speed) a - a =
          (stopWhile lines (speedBelow min_speed) a - a - 1) + 1 := by omega
      rw [hja, range'_getLast?] at hx
      simp only [Option.map_some', Option.or_some, Option.mem_def, Option.some.injEq] at hx
      subst hx
      have hjlen : stopWhile lines (speedBelow min_speed) a < lines.length := by
        have hmem := stopWhile_mem lines
          (fun s => decide (s.point_a.time <
            (lines.getD (stopWhile lines (speedBelow min_speed) a - 1) default).point_b.time
              + (time_interval + 1)))
          (i := stopWhile lines (speedBelow min_speed) a)
          (k := stopWhile lines (speedBelow min_speed) a) (le_refl _) (by omega)
        exact hmem.1
      have := strictlyIncreasingTimes_getD_le lines hmono
        (show a + (stopWhile lines (speedBelow min_speed) a - a - 1) ≤
          stopWhile lines (speedBelow min_speed) a by omega) hjlen
      exact this

section WitnessC4

attribute [local semireducible] Rat.sub Rat.add Rat.mul Rat.inv

/-- C4 witness: the concrete input `demoLines2` has strictly increasing start times and
its produced event's concatenated windows are chronologically non-decreasing. -/
theorem C4_window_concat_chronological_witness :
    (strictlyIncreasingTimes demoLines2 ∧
      parseEvents demoLines2 2 60 = some [demoEvent2] ∧ demoEvent2 ∈ [demoEvent2]) ∧
      chronNonDecreasing (demoEvent2.pre_event ++ demoEvent2.event ++ demoEvent2.post_event) :=
  ⟨⟨by decide, by decide, by decide⟩,
    C4_window_concat_chronological demoLines2 2 60 [demoEvent2] demoEvent2
      (by decide) (by decide) (by decide)⟩

end WitnessC4

/-- C10: with a non-negative time window and strictly increasing start times, every
produced event's `pre_event` is non-empty and its last element is the first segment of
the event's core run — `pre_event` and `event` share that segment. -/
theorem C10_pre_overlaps_run (lines : List TrackSegment) (min_speed time_interval : ℚ)
    (evs : List ExerciseEvent) (ev : ExerciseEvent)
    (hti : 0 ≤ time_interval) (hmono : strictlyIncreasingTimes lines)
    (hevs : parseEvents lines min_speed time_interval = some evs) (hev : ev ∈ evs) :
    ev.pre_event ≠ [] ∧ ev.pre_event.getLast? = ev.event.head? := by
  obtain ⟨a, ha, hPa, hbnd, hmk⟩ :=
    parseEvents_mem lines min_speed time_interval evs ev hevs hev
  obtain ⟨p, hp, rfl⟩ := mkEventAt_eq_some lines min_speed time_interval a _ hmk
  have hj1 : a < stopWhile lines (speedBelow min_speed) a := stopWhile_lt lines _ ha hPa
  obtain ⟨hp0, hplen, hPp, hpall⟩ := skipWhile_spec lines _ hp
  have hpa : p ≤ a := by
    by_contra hpa
    have hP := hpall a (Nat.zero_le a) (by omega)
    simp only [decide_eq_true_iff] at hP
    linarith
  set e := stopWhile lines
    (fun s => decide (s.point_a.time ≤ (lines.getD a default).point_a.time)) p with hedef
  have hle : e ≤ lines.length := stopWhile_le lines _ p (le_of_lt hplen)
  have he : e = a + 1 := by
    by_contra hne
    rcases Nat.lt_or_ge e (a + 1) with hlt | hge
    · have hel2 : e < lines.length := by omega
      have hstop := stopWhile_stop lines
        (fun s => decide (s.point_a.time ≤ (lines.getD a default).point_a.time)) hel2
      rw [← hedef] at hstop
      simp only [decide_eq_false_iff_not, not_le] at hstop
      have hmono2 := strictlyIncreasingTimes_getD_le lines hmono
        (show e ≤ a by omega) ha
      linarith
    · have hlt2 : a + 1 < e := by omega
      have hmem := stopWhile_mem lines
        (fun s => decide (s.point_a.time ≤ (lines.getD a default).point_a.time))
        (i := p) (k := a + 1) (by omega) (by omega)
      have hPtrue := hmem.2
      simp only [decide_eq_true_iff] at hPtrue
      have hmono2 := strictlyIncreasingTimes_getD lines hmono
        (show a < a + 1 by omega) hmem.1
      linarith
  dsimp only
  rw [collectWhile_eq lines
    (fun s => decide (s.point_a.time ≤ (lines.getD a default).point_a.time)) p, ← hedef, he]
  constructor
  · simp only [ne_eq, List.map_eq_nil_iff, List.range'_eq_nil]
    omega
  · rw [collectWhile_eq lines (speedBelow min_speed) a]
    rw [List.getLast?_map, List.head?_map]
    have hap : a + 1 - p = (a - p) + 1 := by omega
    rw [hap, range'_getLast?, List.head?_range']
    rw [if_neg (show ¬ stopWhile lines (speedBelow min_speed) a - a = 0 by omega)]
    have hpa2 : p + (a - p) = a := by omega
    rw [hpa2]

section WitnessC10

attribute [local semireducible] Rat.sub Rat.add Rat.mul Rat.inv

/-- C10 witness: at the concrete input `demoLines2`, the produced event's `pre_event`
ends with the run's first segment. -/
theorem C10_pre_overlaps_run_witness :
    ((0 : ℚ) ≤ 60 ∧ strictlyIncreasingTimes demoLines2 ∧
      parseEvents demoLines2 2 60 = some [demoEvent2] ∧ demoEvent2 ∈ [demoEvent2]) ∧
      (demoEvent2.pre_event ≠ [] ∧ demoEvent2.pre_event.getLast? = demoEvent2.event.head?) :=
  ⟨⟨by decide, by decide, by decide, by decide⟩,
    C10_pre_overlaps_run demoLines2 2 60 [demoEvent2] demoEvent2
      (by decide) (by decide) (by decide) (by decide)⟩

end WitnessC10

/-- C9: the builder yields exactly max(0, N−1) segments, where segment `j` connects
sample `j` (`point_a`) and sample `j + 1` (`point_b`); an empty record yields the empty
sequence, and `parse_events` on an empty segment list returns the empty event list
(no failure on empty input: both results are total values). -/
theorem C9_builder_segment_count (speedFn : TrackPoint → TrackPoint → Speed) (d : TcxData)
    (min_speed time_interval : ℚ) :
    (dataToLines speedFn d).length = d.positions.length - 1 ∧
      (∀ j, j + 1 < d.positions.length →
        ((dataToLines speedFn d).getD j default).point_a = mkPoint d j ∧
        ((dataToLines speedFn d).getD j default).point_b = mkPoint d (j + 1)) ∧
      (d.positions = [] → dataToLines speedFn d = []) ∧
      parseEvents [] min_speed time_interval = some [] := by
  refine ⟨?_, ?_, ?_, rfl⟩
  · rw [dataToLines_eq]; simp
  · intro j hj
    rw [dataToLines_eq]
    have hnth : ((List.range (d.positions.length - 1)).map
        (builtSegment speedFn d)).getD j default = builtSegment speedFn d j := by
      rw [List.getD_eq_getElem _ _ (by simpa using by omega)]
      simp
    rw [hnth]
    exact ⟨rfl, rfl⟩
  · intro hpos
    rw [dataToLines_eq, hpos]
    simp

section WitnessC9

attribute [local semireducible] Rat.sub Rat.add Rat.mul Rat.inv

/-- C9 witness: the three-sample record `demoTcx` gives two segments with the expected
endpoints, and `parse_events` of the empty list is the empty list. -/
theorem C9_builder_segment_count_witness :
    (dataToLines demoSpeedFn demoTcx).length = demoTcx.positions.length - 1 ∧
      (0 + 1 < demoTcx.positions.length ∧
        ((dataToLines demoSpeedFn demoTcx).getD 0 default).point_a = mkPoint demoTcx 0 ∧
        ((dataToLines demoSpeedFn demoTcx).getD 0 default).point_b = mkPoint demoTcx (0 + 1)) ∧
      parseEvents [] 2 60 = some [] :=
  ⟨(C9_builder_segment_count demoSpeedFn demoTcx 2 60).1,
    ⟨by decide, (C9_builder_segment_count demoSpeedFn demoTcx 2 60).2.1 0 (by decide)⟩,
    (C9_builder_segment_count demoSpeedFn demoTcx 2 60).2.2.2⟩

end WitnessC9

section CexC8

attribute [local semireducible] Rat.sub Rat.add Rat.mul Rat.inv

/-- C8 counterexample: with three samples the builder yields two segments, and the
SECOND segment's `prev_speed` is the first segment's speed — not null.  The source's
`if i > 1` admits `i = 2`, which builds the second segment. -/
theorem C8_counterexample :
    (dataToLines demoSpeedFn demoTcx).length = 2 ∧
      ((dataToLines demoSpeedFn demoTcx).getD 1 default).prev_speed = some { km := 7 } ∧
      ((dataToLines demoSpeedFn demoTcx).getD 1 default).prev_speed ≠ none :=
  ⟨by decide, by decide, by decide⟩

end CexC8

/-- C8 (amended): `prev_speed` is null exactly for the first built segment; every later
segment (the second included) receives the previous segment's speed. -/
theorem C8_prev_speed_chain (speedFn : TrackPoint → TrackPoint → Speed) (d : TcxData)
    (j : ℕ) (hj : j + 1 < d.positions.length) :
    ((dataToLines speedFn d).getD j default).prev_speed =
      (if j = 0 then none
       else some (((dataToLines speedFn d).getD (j - 1) default).speed)) := by
  rw [dataToLines_eq]
  have hnth : ∀ k, k + 1 < d.positions.length →
      ((List.range (d.positions.length - 1)).map (builtSegment speedFn d)).getD k default =
        builtSegment speedFn d k := by
    intro k hk
    rw [List.getD_eq_getElem _ _ (by simpa using by omega)]
    simp
  rw [hnth j hj]
  by_cases h0 : j = 0
  · subst h0
    simp [builtSegment]
  · rw [if_neg h0, hnth (j - 1) (by omega)]
    have hj1 : j - 1 + 1 = j := by omega
    simp only [builtSegment, if_neg h0]
    rw [hj1]

section WitnessC8

attribute [local semireducible] Rat.sub Rat.add Rat.mul Rat.inv

/-- C8 witness: the amended `prev_speed` rule at the second segment of `demoTcx`. -/
theorem C8_prev_speed_chain_witness :
    1 + 1 < demoTcx.positions.length ∧
      ((dataToLines demoSpeedFn demoTcx).getD 1 default).prev_speed =
        (if 1 = 0 then none
         else some (((dataToLines demoSpeedFn demoTcx).getD (1 - 1) default).speed)) :=
  ⟨by decide, C8_prev_speed_chain demoSpeedFn demoTcx 1 (by decide)⟩

end WitnessC8

section CexC7

attribute [local semireducible] Rat.sub Rat.add Rat.mul Rat.inv

/-- C7: with both `distances` (values 5, 6, 7) and `speeds` (values 9, 10, 11) matching
the positions length, the built segment's endpoint `distance` fields hold the SPEEDS
values, not the distances values — source lines 65-67 overwrite the `distance`
attribute with raw speed samples. -/
theorem C7_distance_overwritten_by_speeds :
    demoTcx.distances.getD 0 0 = 5 ∧ demoTcx.speeds.getD 0 0 = 9 ∧
      ((dataToLines demoSpeedFn demoTcx).getD 0 default).point_a.distance = some 9 ∧
      ((dataToLines demoSpeedFn demoTcx).getD 0 default).point_a.distance ≠ some 5 ∧
      ((dataToLines demoSpeedFn demoTcx).getD 0 default).point_b.distance = some 10 :=
  ⟨by decide, by decide, by decide, by decide, by decide⟩

end CexC7

section CexC5

attribute [local semireducible] Rat.sub Rat.add Rat.mul Rat.inv

/-- C5: a qualifying feature 10 m away, at latitude 47 and longitude 16, yields an
attached `EventDetail` of type INTERSECTION — but with the coordinates swapped: the
stored location's latitude is the feature's longitude and vice versa, because source
lines 159-161 pass `longitude=node.lat, latitude=node.lon`. -/
theorem C5_classify_swaps_coordinates :
    classifyEvent demoDist (Except.ok [demoNode]) demoPauseEvent =
      Except.ok { demoPauseEvent with
        event_detail := some { location := { latitude := 16, longitude := 47 },
                               type := EventDetailType.INTERSECTION } } ∧
      demoNode.lat = 47 ∧ demoNode.lon = 16 ∧ demoNode.lat ≠ demoNode.lon :=
  ⟨rfl, by decide, by decide, by decide⟩

end CexC5

/-- C6 counterexample: a failing feature service is not surfaced as "no detail found" —
`classify_event` propagates the failure instead of returning the event. -/
theorem C6_counterexample :
    classifyEvent demoDist (Except.error ServiceError.networkError) demoPauseEvent =
      Except.error ServiceError.networkError := rfl

/-- C6 (amended): `classify_event` has no handler at the classifier boundary: every
external-service failure propagates out of it unchanged, for every event and every
distance function. -/
theorem C6_service_error_propagates (dist : ℚ × ℚ → ℚ × ℚ → ℚ) (err : ServiceError)
    (event : ExerciseEvent) :
    classifyEvent dist (Except.error err) event = Except.error err := rfl

end SAF
